import Mathlib

/-!
Verification of the mRNA-display patent ingestion pipeline
(`app/services/ingestion/mrna_pipeline.py`).

The Python helpers are shallowly embedded as executable Lean functions:
Python strings become `String` (or `List Char` where character slicing
matters), `Optional[str]` becomes `Option String` with Python truthiness
(`None` and `""` are falsy), `set`-building followed by `sorted(...)`
becomes `Finset String` followed by `Finset.sort (· ≤ ·)`, dictionaries
preserving insertion order become association lists, and stateful loops
become structural recursions.  Network calls and the regular-expression
matcher are parameters of the embedding (pure functions standing for the
responses of the HTTP client and for `re.search`).  Python `datetime`
behaviour (`datetime.strptime` with the `%Y-%m-%d` / `%Y%m%d` formats,
`date.fromisoformat`, `date + timedelta`) is modelled from the CPython
3.11+ implementation, which is the version the module requires (it
imports `datetime.UTC`).
-/

/-- Python truthiness of an `Optional[str]`: `None` and `""` are falsy. -/
def pyTruthy : Option String → Bool
  | none => false
  | some s => s != ""

/-- Python `a or b` on `Optional[str]` values. -/
def pyOrOpt (a b : Option String) : Option String :=
  if pyTruthy a then a else b

/-- Python `a or b` on plain strings. -/
def pyOrStr (a b : String) : String :=
  if a = "" then b else a

/-- Python's `<` on strings, as an executable lexicographic comparison
of the code points (`listCharLe x y` decides `x ≤ y`). -/
def listCharLe : List Char → List Char → Bool
  | [], _ => true
  | _ :: _, [] => false
  | a :: as, b :: bs =>
    if a < b then true
    else if b < a then false
    else listCharLe as bs

/-- Ordering used by Python's `sorted` on strings. -/
def pyLe (a b : String) : Prop := listCharLe a.data b.data = true

instance : DecidableRel pyLe := fun _ _ => instDecidableEqBool _ _

lemma listCharLe_total (x y : List Char) : listCharLe x y = true ∨ listCharLe y x = true := by
  induction x generalizing y with
  | nil => left; rfl
  | cons a as ih =>
    cases y with
    | nil => right; rfl
    | cons b bs =>
      rcases lt_trichotomy a b with h | h | h
      · left; simp [listCharLe, h]
      · subst h
        rcases ih bs with h2 | h2
        · left; simp [listCharLe, h2, lt_irrefl]
        · right; simp [listCharLe, h2, lt_irrefl]
      · right; simp [listCharLe, h]

lemma listCharLe_antisymm (x y : List Char) (h1 : listCharLe x y = true)
    (h2 : listCharLe y x = true) : x = y := by
  induction x generalizing y with
  | nil =>
    cases y with
    | nil => rfl
    | cons b bs => simp [listCharLe] at h2
  | cons a as ih =>
    cases y with
    | nil => simp [listCharLe] at h1
    | cons b bs =>
      rcases lt_trichotomy a b with h | h | h
      · simp [listCharLe, h, asymm h] at h2
      · subst h
        simp [listCharLe, lt_irrefl] at h1 h2
        rw [ih bs h1 h2]
      · simp [listCharLe, h, asymm h] at h1

lemma listCharLe_trans (x y z : List Char) (h1 : listCharLe x y = true)
    (h2 : listCharLe y z = true) : listCharLe x z = true := by
  induction x generalizing y z with
  | nil => rfl
  | cons a as ih =>
    cases y with
    | nil => simp [listCharLe] at h1
    | cons b bs =>
      cases z with
      | nil => simp [listCharLe] at h2
      | cons c cs =>
        rcases lt_trichotomy a b with hab | hab | hab
        · rcases lt_trichotomy b c with hbc | hbc | hbc
          · simp [listCharLe, lt_trans hab hbc]
          · subst hbc; simp [listCharLe, hab]
          · simp [listCharLe, hbc, asymm hbc] at h2
        · subst hab
          rcases lt_trichotomy a c with hac | hac | hac
          · simp [listCharLe, hac]
          · subst hac
            simp [listCharLe, lt_irrefl] at h1 h2 ⊢
            exact ih bs cs h1 h2
          · simp [listCharLe, hac, asymm hac] at h2
        · simp [listCharLe, hab, asymm hab] at h1

instance : IsTotal String pyLe := ⟨fun a b => listCharLe_total a.data b.data⟩

instance : IsTrans String pyLe := ⟨fun a b c => listCharLe_trans a.data b.data c.data⟩

instance : IsAntisymm String pyLe :=
  ⟨fun a b h1 h2 => by
    cases a; cases b
    exact congrArg String.mk (listCharLe_antisymm _ _ h1 h2)⟩

/-- Python `sorted(strings)` (insertion sort is extensionally the sort
Python performs: a sorted permutation, and on duplicate-free input the
unique sorted enumeration). -/
def pySorted (l : List String) : List String := l.insertionSort pyLe

/-- Python `sorted({*xs, *ys})`: union as a set (deduplicated), emitted
as a sorted list. -/
def pySortedUnion (xs ys : List String) : List String := pySorted ((xs ++ ys).dedup)

/-- Value of an entry of the `source` attribution dictionary: the code
stores either a string (`{"provider": ...}`) or a list of strings
(`{"providers": sorted({left.provider, right.provider})}`). -/
inductive SVal where
  | str (v : String)
  | strs (vs : List String)
deriving DecidableEq

/-- Embedding of the dataclass `ProviderPatentRaw` (normalised provider
response). -/
structure ProviderPatentRaw where
  doc_number : String
  jurisdiction : String
  kind_code : Option String
  family_id : Option String
  title : Option String
  abstract : Option String
  claims : Option String
  description : Option String
  filing_date : Option String
  publication_date : Option String
  grant_date : Option String
  assignees : List String
  inventors : List String
  cpc_codes : List String
  ipc_codes : List String
  priority_numbers : List String
  source : List (String × SVal)
  provider : String
deriving DecidableEq

/-- Embedding of the dataclass `SnippetPayload`.  The Python field
`section` is a Lean keyword and is rendered as `sectionName`. -/
structure SnippetPayload where
  sectionName : String
  start_char : Nat
  end_char : Nat
  text : String
deriving DecidableEq

/-- Python slice `s[a:b]` for `0 ≤ a ≤ b` (the only way the pipeline
slices). -/
def pySlice (s : String) (a b : Nat) : String :=
  String.mk ((s.toList.drop a).take (b - a))

/-- Loop body of `chunk_text`: starting from offset `start`, emit the
window `[start, min (start + chunk_size) (length text))`, stop if the
window reached the end of the text, otherwise restart from
`max (end - overlap) (start + 1)`.  Faithful to the `while` loop of
`chunk_text`; `Nat` subtraction agrees with the Python `int` code
because a negative `end - overlap` is dominated by `start + 1` inside
`max` either way. -/
def chunkGo (text : String) (sec : String) (chunk_size overlap : Nat) (start : Nat) :
    List SnippetPayload :=
  if h : start < text.length then
    let e := min (start + chunk_size) text.length
    let snip : SnippetPayload :=
      { sectionName := sec, start_char := start, end_char := e, text := pySlice text start e }
    if e = text.length then [snip]
    else snip :: chunkGo text sec chunk_size overlap (max (e - overlap) (start + 1))
  else []
termination_by text.length - start
decreasing_by
  have h1 : start + 1 ≤ max (min (start + chunk_size) text.length - overlap) (start + 1) :=
    le_max_right _ _
  omega

/-- Embedding of `chunk_text`: `None` and `""` yield no snippets,
otherwise the window loop runs from offset 0. -/
def chunk_text (text : Option String) (sec : String) (chunk_size overlap : Nat) :
    List SnippetPayload :=
  match text with
  | none => []
  | some t => if t = "" then [] else chunkGo t sec chunk_size overlap 0

/-- Fuel-indexed variant of the `chunk_text` loop, used to express
termination: `none` means the fuel ran out before the loop finished. -/
def chunkGoFuel (fuel : Nat) (text : String) (sec : String) (chunk_size overlap : Nat)
    (start : Nat) : Option (List SnippetPayload) :=
  match fuel with
  | 0 => none
  | fuel + 1 =>
    if start < text.length then
      let e := min (start + chunk_size) text.length
      let snip : SnippetPayload :=
        { sectionName := sec, start_char := start, end_char := e, text := pySlice text start e }
      if e = text.length then some [snip]
      else
        match chunkGoFuel fuel text sec chunk_size overlap (max (e - overlap) (start + 1)) with
        | none => none
        | some rest => some (snip :: rest)
    else some []

lemma chunkGo_start_lt (text sec : String) (cs ov start : Nat) (h : start < text.length) :
    chunkGo text sec cs ov start =
      (let e := min (start + cs) text.length
       let snip : SnippetPayload :=
        { sectionName := sec, start_char := start, end_char := e, text := pySlice text start e }
       if e = text.length then [snip]
       else snip :: chunkGo text sec cs ov (max (e - ov) (start + 1))) := by
  rw [chunkGo]
  simp [h]

lemma chunkGo_start_ge (text sec : String) (cs ov start : Nat) (h : ¬ start < text.length) :
    chunkGo text sec cs ov start = [] := by
  rw [chunkGo]
  simp [h]

lemma chunkGo_covers (text sec : String) (cs ov : Nat) (hcs : 1 ≤ cs) :
    ∀ n start i, text.length - start ≤ n → start ≤ i → i < text.length →
      ∃ s ∈ chunkGo text sec cs ov start, s.start_char ≤ i ∧ i < s.end_char := by
  intro n
  induction n with
  | zero => intro start i h1 h2 h3; omega
  | succ n ih =>
    intro start i hn hsi hil
    have hlt : start < text.length := lt_of_le_of_lt hsi hil
    rw [chunkGo_start_lt text sec cs ov start hlt]
    simp only
    by_cases hend : min (start + cs) text.length = text.length
    · rw [if_pos hend]
      exact ⟨_, List.mem_singleton_self _, hsi, by simpa [hend] using hil⟩
    · rw [if_neg hend]
      have he : min (start + cs) text.length = start + cs := by omega
      by_cases hie : i < min (start + cs) text.length
      · exact ⟨_, List.mem_cons_self _ _, hsi, hie⟩
      · have hstep : start + 1 ≤ max (min (start + cs) text.length - ov) (start + 1) :=
          le_max_right _ _
        obtain ⟨s, hs, h1, h2⟩ :=
          ih (max (min (start + cs) text.length - ov) (start + 1)) i (by omega) (by omega) hil
        exact ⟨s, List.mem_cons_of_mem _ hs, h1, h2⟩

lemma chunkGo_text_eq (text sec : String) (cs ov : Nat) :
    ∀ n start, text.length - start ≤ n →
      ∀ s ∈ chunkGo text sec cs ov start, s.text = pySlice text s.start_char s.end_char := by
  intro n
  induction n with
  | zero =>
    intro start h s hs
    have : ¬ start < text.length := by omega
    rw [chunkGo_start_ge text sec cs ov start this] at hs
    simp at hs
  | succ n ih =>
    intro start hn s hs
    by_cases hlt : start < text.length
    · rw [chunkGo_start_lt text sec cs ov start hlt] at hs
      simp only at hs
      by_cases hend : min (start + cs) text.length = text.length
      · rw [if_pos hend] at hs
        rcases List.mem_singleton.mp hs with rfl
        rfl
      · rw [if_neg hend] at hs
        rcases List.mem_cons.mp hs with rfl | hs'
        · rfl
        · have hstep : start + 1 ≤ max (min (start + cs) text.length - ov) (start + 1) :=
            le_max_right _ _
          exact ih (max (min (start + cs) text.length - ov) (start + 1)) (by omega) s hs'
    · rw [chunkGo_start_ge text sec cs ov start hlt] at hs
      simp at hs

/-- C3: for every non-empty input text and each of the three
window/overlap configurations used by the pipeline (abstract 1200/200,
claims 1500/250, description 2000/400), the half-open
`[start_char, end_char)` windows of the snippets produced by
`chunk_text` cover every offset of the text, and every snippet's `text`
field is exactly the corresponding slice of the input. -/
theorem chunk_text_coverage_exact (t sec : String) (cs ov : Nat)
    (hne : t ≠ "")
    (hparams : (cs, ov) = (1200, 200) ∨ (cs, ov) = (1500, 250) ∨ (cs, ov) = (2000, 400)) :
    (∀ i, i < t.length →
       ∃ s ∈ chunk_text (some t) sec cs ov, s.start_char ≤ i ∧ i < s.end_char) ∧
    (∀ s ∈ chunk_text (some t) sec cs ov, s.text = pySlice t s.start_char s.end_char) := by
  have hcs : 1 ≤ cs := by
    rcases hparams with h | h | h <;> (injection h with h1 h2; omega)
  have hct : chunk_text (some t) sec cs ov = chunkGo t sec cs ov 0 := by
    simp [chunk_text, hne]
  constructor
  · intro i hi
    rw [hct]
    exact chunkGo_covers t sec cs ov hcs t.length 0 i (by omega) (Nat.zero_le i) hi
  · intro s hs
    rw [hct] at hs
    exact chunkGo_text_eq t sec cs ov t.length 0 (by omega) s hs

/-- Witness for C3 at the concrete text `"hi"` with the abstract
configuration 1200/200. -/
theorem chunk_text_coverage_exact_witness :
    ∃ s ∈ chunk_text (some "hi") "abstract" 1200 200, s.start_char ≤ 0 ∧ 0 < s.end_char :=
  (chunk_text_coverage_exact "hi" "abstract" 1200 200 (by decide) (Or.inl rfl)).1 0 (by decide)

lemma chunkGoFuel_complete (text sec : String) (cs ov : Nat) :
    ∀ n start, text.length - start < n →
      chunkGoFuel n text sec cs ov start = some (chunkGo text sec cs ov start) := by
  intro n
  induction n with
  | zero => intro start h; omega
  | succ n ih =>
    intro start hn
    by_cases hlt : start < text.length
    · rw [chunkGo_start_lt text sec cs ov start hlt]
      simp only [chunkGoFuel, if_pos hlt]
      by_cases hend : min (start + cs) text.length = text.length
      · simp [hend]
      · have hstep : start + 1 ≤ max (min (start + cs) text.length - ov) (start + 1) :=
          le_max_right _ _
        rw [if_neg hend, if_neg hend,
          ih (max (min (start + cs) text.length - ov) (start + 1)) (by omega)]
    · rw [chunkGo_start_ge text sec cs ov start hlt]
      simp [chunkGoFuel, hlt]

/-- C9: the `chunk_text` loop terminates on every text and every
window/overlap pair, including pathological ones with
`overlap ≥ chunk_size`, because every iteration either reaches the end
of the text or advances the start offset by at least one character
(`max (end - overlap) (start + 1)`): running the loop with
`length text + 1` units of fuel never exhausts the fuel and produces
exactly the snippets of the total function `chunkGo`. -/
theorem chunk_text_terminates (t sec : String) (cs ov : Nat) :
    chunkGoFuel (t.length + 1) t sec cs ov 0 = some (chunkGo t sec cs ov 0) :=
  chunkGoFuel_complete t sec cs ov (t.length + 1) 0 (by omega)


/-- Embedding of the dataclass `CoverageReport` (its `coverage_ratio`
property follows separately). -/
structure CoverageReport where
  canonical : Nat
  present : Nat
  missing : List String
deriving DecidableEq

/-- Embedding of the property `CoverageReport.coverage_ratio`; the
Python `float` division of the two counts is modelled exactly over
`ℚ`. -/
def CoverageReport.coverage_ratio (r : CoverageReport) : ℚ :=
  if r.canonical = 0 then 1 else (r.present : ℚ) / (r.canonical : ℚ)

/-- Normalisation `doc.strip().upper()` applied to each doc number
(whitespace stripping and ASCII upper-casing at the character level). -/
def normDoc (doc : String) : String :=
  String.mk ((((doc.data.dropWhile Char.isWhitespace).reverse.dropWhile
    Char.isWhitespace).reverse).map Char.toUpper)

/-- Set comprehension `{doc.strip().upper() for doc in docs if doc}`
used for both arguments of `summarise_coverage`; the Python `set` is
modelled as a duplicate-free list. -/
def canonList (docs : List String) : List String :=
  ((docs.filter (fun d => d != "")).map normDoc).dedup

/-- Embedding of `summarise_coverage`: `canonical` is the size of the
canonical set, `present` the size of the intersection with the present
set, `missing` the sorted set difference. -/
def summarise_coverage (canonical_doc_numbers present_doc_numbers : List String) :
    CoverageReport :=
  let canonical_set := canonList canonical_doc_numbers
  let present_set := canonList present_doc_numbers
  { canonical := canonical_set.length
    present := (canonical_set.filter (fun d => present_set.contains d)).length
    missing := pySorted (canonical_set.filter (fun d => !(present_set.contains d))) }

lemma mem_canonList (docs : List String) (d : String) :
    d ∈ canonList docs ↔ ∃ x ∈ docs, x ≠ "" ∧ normDoc x = d := by
  simp only [canonList, List.mem_dedup, List.mem_map, List.mem_filter, bne_iff_ne, ne_eq]
  constructor
  · rintro ⟨x, ⟨hx, hne⟩, rfl⟩
    exact ⟨x, hx, hne, rfl⟩
  · rintro ⟨x, hx, hne, rfl⟩
    exact ⟨x, ⟨hx, hne⟩, rfl⟩

lemma mem_pySorted (l : List String) (d : String) : d ∈ pySorted l ↔ d ∈ l :=
  (List.perm_insertionSort pyLe l).mem_iff

lemma contains_eq_false_iff (l : List String) (d : String) :
    (!l.contains d) = true ↔ d ∉ l := by simp

/-- C8: `summarise_coverage` trims, upper-cases and drops falsy entries
of both lists before set conversion; `canonical` is the size of the
canonical set, `present` counts the canonical doc numbers found in the
present set, `missing` is the sorted list of canonical doc numbers
absent from the present set, and `coverage_ratio` is
`present / canonical`, defined as `1` when `canonical = 0`; on
`["US1", "WO2"]` vs `["us1"]` this yields `present = 1`,
`missing = ["WO2"]` and ratio `1/2`. -/
theorem summarise_coverage_spec (cs ps : List String) :
    (∀ d, d ∈ (summarise_coverage cs ps).missing ↔
       ((∃ x ∈ cs, x ≠ "" ∧ normDoc x = d) ∧ ∀ y ∈ ps, y ≠ "" → normDoc y ≠ d)) ∧
    List.Sorted pyLe (summarise_coverage cs ps).missing ∧
    (summarise_coverage cs ps).canonical = (canonList cs).length ∧
    (summarise_coverage cs ps).present =
      ((canonList cs).filter (fun d => (canonList ps).contains d)).length ∧
    ((summarise_coverage cs ps).canonical = 0 →
      (summarise_coverage cs ps).coverage_ratio = 1) ∧
    ((summarise_coverage cs ps).canonical ≠ 0 →
      (summarise_coverage cs ps).coverage_ratio =
        ((summarise_coverage cs ps).present : ℚ) / ((summarise_coverage cs ps).canonical : ℚ)) ∧
    summarise_coverage ["US1", "WO2"] ["us1"] =
      { canonical := 2, present := 1, missing := ["WO2"] } ∧
    (summarise_coverage ["US1", "WO2"] ["us1"]).coverage_ratio = 1 / 2 := by
  refine ⟨?_, ?_, rfl, rfl, ?_, ?_, by decide, ?_⟩
  · intro d
    have hmiss : (summarise_coverage cs ps).missing =
        pySorted ((canonList cs).filter (fun x => !((canonList ps).contains x))) := rfl
    rw [hmiss, mem_pySorted, List.mem_filter]
    simp only [contains_eq_false_iff, mem_canonList, ne_eq]
    constructor
    · rintro ⟨h1, h2⟩
      exact ⟨h1, fun y hy hne heq => h2 ⟨y, hy, hne, heq⟩⟩
    · rintro ⟨h1, h2⟩
      refine ⟨h1, fun h => ?_⟩
      obtain ⟨y, hy, hne, heq⟩ := h
      exact h2 y hy hne heq
  · exact List.sorted_insertionSort _ _
  · intro h
    simp only [CoverageReport.coverage_ratio, if_pos h]
  · intro h
    simp only [CoverageReport.coverage_ratio, if_neg h]
  · have h : summarise_coverage ["US1", "WO2"] ["us1"] =
      { canonical := 2, present := 1, missing := ["WO2"] } := by decide
    rw [h]
    norm_num [CoverageReport.coverage_ratio]

/-- Witness for C8: on the concrete input of the claim, `"WO2"` is in
the missing list. -/
theorem summarise_coverage_spec_witness :
    "WO2" ∈ (summarise_coverage ["US1", "WO2"] ["us1"]).missing :=
  ((summarise_coverage_spec ["US1", "WO2"] ["us1"]).1 "WO2").mpr
    ⟨⟨"WO2", by decide, by decide, by decide⟩, by decide⟩

/-- C10 counterexample: a blank (whitespace-only) entry is not ignored
by `summarise_coverage`: the truthiness filter `if doc` only drops the
empty string, so `" "` survives, normalises to `""` and inflates
`canonical` to 1 on input `([" "], [])`. -/
theorem summarise_coverage_blank_counterexample :
    (summarise_coverage [" "] []).canonical = 1 ∧
    summarise_coverage [" "] [] ≠ summarise_coverage [] [] := by
  constructor
  · decide
  · decide

/-- C10 (amended): for every pair of input lists,
`present + length missing = canonical` and the coverage ratio lies in
`[0, 1]`; entries that normalise to the same doc number are counted
once, and entries equal to the empty string are ignored on both sides —
whitespace-only entries however are kept (they normalise to `""`). -/
theorem coverage_report_invariants (cs ps : List String) :
    (summarise_coverage cs ps).present + (summarise_coverage cs ps).missing.length =
      (summarise_coverage cs ps).canonical ∧
    0 ≤ (summarise_coverage cs ps).coverage_ratio ∧
    (summarise_coverage cs ps).coverage_ratio ≤ 1 ∧
    (∀ x, x ≠ "" → (∃ y ∈ cs, y ≠ "" ∧ normDoc y = normDoc x) →
      summarise_coverage (x :: cs) ps = summarise_coverage cs ps) ∧
    summarise_coverage ("" :: cs) ps = summarise_coverage cs ps ∧
    summarise_coverage cs ("" :: ps) = summarise_coverage cs ps := by
  have hle : (summarise_coverage cs ps).present ≤ (summarise_coverage cs ps).canonical := by
    simp only [summarise_coverage]
    exact List.length_filter_le _ _
  refine ⟨?_, ?_, ?_, ?_, ?_, ?_⟩
  · have hlen : (summarise_coverage cs ps).missing.length =
        ((canonList cs).filter (fun d => !((canonList ps).contains d))).length :=
      (List.perm_insertionSort pyLe _).length_eq
    rw [hlen]
    exact (@List.length_eq_length_filter_add String (canonList cs)
      (fun d => (canonList ps).contains d)).symm
  · simp only [CoverageReport.coverage_ratio]
    split
    · norm_num
    · positivity
  · simp only [CoverageReport.coverage_ratio]
    split
    · norm_num
    · rename_i h
      have hpos : 0 < (summarise_coverage cs ps).canonical := Nat.pos_of_ne_zero h
      rw [div_le_one (by exact_mod_cast hpos)]
      exact_mod_cast hle
  · intro x hx hmem
    obtain ⟨y, hy, hyne, hnorm⟩ := hmem
    have hcanon : canonList (x :: cs) = canonList cs := by
      have hfilter : (x :: cs).filter (fun d => d != "") =
          x :: cs.filter (fun d => d != "") := by
        simp [List.filter_cons, hx]
      have hin : normDoc x ∈ (cs.filter (fun d => d != "")).map normDoc :=
        List.mem_map.mpr ⟨y, List.mem_filter.mpr ⟨hy, by simp [hyne]⟩, hnorm⟩
      simp only [canonList, hfilter, List.map_cons]
      exact List.dedup_cons_of_mem hin
    simp only [summarise_coverage, hcanon]
  · have hcanon : canonList ("" :: cs) = canonList cs := by
      simp [canonList, List.filter_cons]
    simp only [summarise_coverage, hcanon]
  · have hcanon : canonList ("" :: ps) = canonList ps := by
      simp [canonList, List.filter_cons]
    simp only [summarise_coverage, hcanon]

/-- Witness for the amended C10 at concrete inputs: the count identity,
the ignored empty entry, and a duplicate entry (equal after
normalisation) collapsing. -/
theorem coverage_report_invariants_witness :
    ((summarise_coverage ["US1", "WO2"] ["us1"]).present +
       (summarise_coverage ["US1", "WO2"] ["us1"]).missing.length =
       (summarise_coverage ["US1", "WO2"] ["us1"]).canonical) ∧
    summarise_coverage ("" :: ["US1"]) ["us1"] = summarise_coverage ["US1"] ["us1"] ∧
    summarise_coverage ("us1 " :: ["US1"]) [] = summarise_coverage ["US1"] [] :=
  ⟨(coverage_report_invariants ["US1", "WO2"] ["us1"]).1,
   (coverage_report_invariants ["US1"] ["us1"]).2.2.2.2.1,
   (coverage_report_invariants ["US1"] []).2.2.2.1 "us1 " (by decide)
     ⟨"US1", by decide, by decide, by decide⟩⟩

/-- Embedding of `datetime.date`: a calendar date; validity is enforced
by the constructor function `mkPyDate` below. -/
structure PyDate where
  year : Nat
  month : Nat
  day : Nat
deriving DecidableEq

/-- Gregorian leap-year rule used by `datetime`. -/
def isLeap (y : Nat) : Bool := y % 4 == 0 && (y % 100 != 0 || y % 400 == 0)

/-- Length of month `m` of year `y` (CPython `_days_in_month`). -/
def daysInMonth (y m : Nat) : Nat :=
  if m = 2 then (if isLeap y then 29 else 28)
  else if m = 4 ∨ m = 6 ∨ m = 9 ∨ m = 11 then 30
  else 31

/-- Python `datetime.date(y, m, d)`: `none` models the `ValueError`
raised on an out-of-range component. -/
def mkPyDate (y m d : Nat) : Option PyDate :=
  if 1 ≤ y ∧ y ≤ 9999 ∧ 1 ≤ m ∧ m ≤ 12 ∧ 1 ≤ d ∧ d ≤ daysInMonth y m then
    some ⟨y, m, d⟩
  else none

/-- Number of days before January 1 of year `y` in the proleptic
Gregorian calendar (CPython `_days_before_year`). -/
def daysBeforeYear (y : Nat) : Nat :=
  (y - 1) * 365 + (y - 1) / 4 - (y - 1) / 100 + (y - 1) / 400

/-- Number of days of year `y` before month `m` (CPython
`_days_before_month`). -/
def daysBeforeMonth (y m : Nat) : Nat :=
  (List.range (m - 1)).foldl (fun acc i => acc + daysInMonth y (i + 1)) 0

/-- Python `date.toordinal()`: day count with 0001-01-01 as day 1. -/
def toOrdinal (d : PyDate) : Nat :=
  daysBeforeYear d.year + daysBeforeMonth d.year d.month + d.day

/-- Helper for `fromOrdinal`: walk the months of year `y` to convert a
1-based day-of-year into a month/day pair (the fuel starts at 11, one
step per month skipped). -/
def monthDayStep (y : Nat) : Nat → Nat → Nat → Nat × Nat
  | 0, m, d => (m, d)
  | fuel + 1, m, d =>
    if d ≤ daysInMonth y m then (m, d)
    else monthDayStep y fuel (m + 1) (d - daysInMonth y m)

/-- Modelled from the spec of CPython `date.fromordinal` (`_ord2ymd`):
inverse of `toOrdinal`, defined on ordinals 1 .. 3652059 (years
1 .. 9999); out-of-range ordinals give `none` (the `ValueError` /
`OverflowError` of the Python code). -/
def fromOrdinal (n : Nat) : Option PyDate :=
  if n < 1 ∨ 3652059 < n then none
  else
    let n0 := n - 1
    let n400 := n0 / 146097
    let r400 := n0 % 146097
    let n100 := r400 / 36524
    let r100 := r400 % 36524
    let n4 := r100 / 1461
    let r4 := r100 % 1461
    let n1 := r4 / 365
    let r1 := r4 % 365
    let year := n400 * 400 + n100 * 100 + n4 * 4 + n1 + 1
    if n1 = 4 ∨ n100 = 4 then some ⟨year - 1, 12, 31⟩
    else
      let md := monthDayStep year 11 1 (r1 + 1)
      some ⟨year, md.1, md.2⟩

/-- Python `date + timedelta(days = k)` for `k ≥ 0`: `none` models the
`OverflowError` raised when the result leaves the supported range. -/
def addDays (d : PyDate) (k : Nat) : Option PyDate := fromOrdinal (toOrdinal d + k)

/-- Python `priority or filing` on optional dates (`date` objects are
always truthy). -/
def pyDateOr (a b : Option PyDate) : Option PyDate :=
  match a with
  | some x => some x
  | none => b

/-- Embedding of `estimate_expiration`: the anchor is
`priority or filing`; no anchor gives `some none` (Python returns
`None`); the outer `none` models an `OverflowError` escaping from the
date addition `anchor + timedelta(days=20*365)`. -/
def estimate_expiration (filing priority : Option PyDate) : Option (Option PyDate) :=
  match pyDateOr priority filing with
  | none => some none
  | some anchor => Option.map some (addDays anchor (20 * 365))

/-- Numeric value of a decimal digit character. -/
def digitVal (c : Char) : Nat := c.toNat - '0'.toNat

/-- Value of a list of decimal digit characters. -/
def digitsVal (l : List Char) : Nat := l.foldl (fun acc c => acc * 10 + digitVal c) 0

/-- All characters are ASCII decimal digits. -/
def allDigits (l : List Char) : Bool := l.all Char.isDigit

/-- Token accepted by the CPython `_strptime` month pattern
`1[0-2]|0[1-9]|[1-9]`: one or two digits with value 1 .. 12. -/
def monthToken (l : List Char) : Option Nat :=
  if allDigits l && (l.length == 1 || l.length == 2) &&
      (1 ≤ digitsVal l && digitsVal l ≤ 12 : Bool) then
    some (digitsVal l)
  else none

/-- Token accepted by the CPython `_strptime` day pattern
`3[01]|[12]\d|0[1-9]|[1-9]`: one or two digits with value 1 .. 31. -/
def dayToken (l : List Char) : Option Nat :=
  if allDigits l && (l.length == 1 || l.length == 2) &&
      (1 ≤ digitsVal l && digitsVal l ≤ 31 : Bool) then
    some (digitsVal l)
  else none

/-- Split a character list on `'-'` (Python `re` separator handling for
the dashed date format). -/
def splitOnDash : List Char → List (List Char)
  | [] => [[]]
  | c :: rest =>
    let r := splitOnDash rest
    if c = '-' then [] :: r
    else
      match r with
      | [] => [[c]]
      | t :: ts => (c :: t) :: ts

/-- Modelled from CPython `datetime.strptime(s, "%Y-%m-%d")`: exactly
four digits, dash, month token, dash, day token, full match, then
validation by the `date` constructor.  A failure of either stage is the
caught `ValueError`. -/
def strptime_Y_dash_m_dash_d (s : String) : Option PyDate :=
  match splitOnDash s.data with
  | [ys, ms, ds] =>
    if allDigits ys && ys.length == 4 then
      match monthToken ms, dayToken ds with
      | some m, some d => mkPyDate (digitsVal ys) m d
      | _, _ => none
    else none
  | _ => none

/-- Modelled from CPython `datetime.strptime(s, "%Y%m%d")`: four digit
year, then month and day tokens with regex backtracking order (the
two-digit alternative of each token is preferred, the whole string must
be consumed), then validation by the `date` constructor (validation
failure does not re-enter the regex). -/
def strptime_Ymd_compact (s : String) : Option PyDate :=
  match s.data with
  | y1 :: y2 :: y3 :: y4 :: rest =>
    if allDigits [y1, y2, y3, y4] && allDigits rest then
      let y := digitsVal [y1, y2, y3, y4]
      match rest with
      | [a, b] =>
        match monthToken [a], dayToken [b] with
        | some m, some d => mkPyDate y m d
        | _, _ => none
      | [a, b, c] =>
        match monthToken [a, b], dayToken [c] with
        | some m, some d => mkPyDate y m d
        | _, _ =>
          match monthToken [a], dayToken [b, c] with
          | some m, some d => mkPyDate y m d
          | _, _ => none
      | [a, b, c, d] =>
        match monthToken [a, b], dayToken [c, d] with
        | some m, some dd => mkPyDate y m dd
        | _, _ => none
      | _ => none
    else none
  | _ => none

/-- Modelled from CPython 3.11+ `_isoweek_to_gregorian` (the ISO week
branch of `date.fromisoformat`). -/
def isoWeekToGregorian (year week day : Nat) : Option PyDate :=
  if !(1 ≤ year && year ≤ 9999 : Bool) then none
  else if !(1 ≤ day && day ≤ 7 : Bool) then none
  else
    let firstDay := daysBeforeYear year + 1
    let firstWeekday := (firstDay + 6) % 7
    let week1monday := if firstWeekday > 3 then firstDay - firstWeekday + 7
      else firstDay - firstWeekday
    let weekOk :=
      (1 ≤ week && week ≤ 52 : Bool) ||
      (week == 53 &&
        (firstDay % 7 == 4 || (firstDay % 7 == 3 && isLeap year)) : Bool)
    if weekOk then fromOrdinal (week1monday + (week - 1) * 7 + (day - 1))
    else none

/-- Modelled from CPython 3.11+ `date.fromisoformat` (the version the
module runs on, since it imports `datetime.UTC`): only strings of
length 7, 8 or 10 are accepted; four digit year, optional dash, then
either an ISO week form `Www-D` / `WwwD` (day digit required, as in the
C parser) or a two-digit month and two-digit day with consistent
dashes; no trailing characters; the result is validated by the `date`
constructor. -/
def date_fromisoformat (s : String) : Option PyDate :=
  let cs := s.data
  if cs.length == 7 || cs.length == 8 || cs.length == 10 then
    match cs with
    | y1 :: y2 :: y3 :: y4 :: rest =>
      if allDigits [y1, y2, y3, y4] then
        let year := digitsVal [y1, y2, y3, y4]
        let hasSep := match rest with
          | '-' :: _ => true
          | _ => false
        let body := if hasSep then rest.drop 1 else rest
        match body with
        | 'W' :: w1 :: w2 :: tail =>
          if allDigits [w1, w2] then
            let wk := digitsVal [w1, w2]
            let dayPart := if hasSep then
                match tail with
                | '-' :: t => some t
                | _ => none
              else some tail
            match dayPart with
            | some [d1] =>
              if d1.isDigit then isoWeekToGregorian year wk (digitVal d1) else none
            | _ => none
          else none
        | m1 :: m2 :: tail =>
          if allDigits [m1, m2] then
            let dayPart := if hasSep then
                match tail with
                | '-' :: t => some t
                | _ => none
              else some tail
            match dayPart with
            | some [d1, d2] =>
              if allDigits [d1, d2] then
                mkPyDate year (digitsVal [m1, m2]) (digitsVal [d1, d2])
              else none
            | _ => none
          else none
        | _ => none
      else none
    | _ => none
  else none

/-- Embedding of `safe_date`: falsy input gives `None`, then the two
`strptime` formats are tried, then `date.fromisoformat`, the first
success winning; every failure is swallowed. -/
def safe_date (raw : Option String) : Option PyDate :=
  match raw with
  | none => none
  | some s =>
    if s = "" then none
    else
      match strptime_Y_dash_m_dash_d s with
      | some d => some d
      | none =>
        match strptime_Ymd_compact s with
        | some d => some d
        | none => date_fromisoformat s

/-- C5 counterexample: `"2020-01-01"` parses to 2020-01-01, but the
ISO-datetime-shaped string `"2020-01-01T00:00:00"` does not parse to
the same calendar date: both `strptime` formats reject it and the
`date.fromisoformat` of CPython 3.11+ only accepts strings of length
7, 8 or 10, so `safe_date` returns `None`. -/
theorem safe_date_iso_datetime_counterexample :
    safe_date (some "2020-01-01") = some ⟨2020, 1, 1⟩ ∧
    safe_date (some "2020-01-01T00:00:00") = none := by
  constructor
  · decide
  · decide

/-- C5 (amended): `safe_date` tries `%Y-%m-%d`, then `%Y%m%d`, then
`date.fromisoformat`, the first success winning, and never raises;
`"2020-01-01"` and `"20200101"` parse to the same calendar date
2020-01-01, while `"2020-01-01T00:00:00"`-shaped strings yield `None`
(the ISO fallback only accepts strings of length 7, 8 or 10); empty,
`None` and garbage input yield `None`. -/
theorem safe_date_fallback_order :
    (∀ s d, strptime_Y_dash_m_dash_d s = some d → s ≠ "" → safe_date (some s) = some d) ∧
    (∀ s d, strptime_Y_dash_m_dash_d s = none → strptime_Ymd_compact s = some d →
      s ≠ "" → safe_date (some s) = some d) ∧
    (∀ s, strptime_Y_dash_m_dash_d s = none → strptime_Ymd_compact s = none →
      s ≠ "" → safe_date (some s) = date_fromisoformat s) ∧
    safe_date none = none ∧
    safe_date (some "") = none ∧
    safe_date (some "2020-01-01") = some ⟨2020, 1, 1⟩ ∧
    safe_date (some "20200101") = some ⟨2020, 1, 1⟩ ∧
    safe_date (some "2020-01-01T00:00:00") = none ∧
    safe_date (some "not-a-date!") = none := by
  refine ⟨?_, ?_, ?_, rfl, by decide, by decide, by decide, by decide, by decide⟩
  · intro s d h1 hne
    simp only [safe_date, if_neg hne, h1]
  · intro s d h1 h2 hne
    simp only [safe_date, if_neg hne, h1, h2]
  · intro s h1 h2 hne
    simp only [safe_date, if_neg hne, h1, h2]

/-- Witness for the amended C5: the first-format clause applied at a
concrete date string. -/
theorem safe_date_fallback_order_witness :
    safe_date (some "2021-12-31") = some ⟨2021, 12, 31⟩ :=
  safe_date_fallback_order.1 "2021-12-31" ⟨2021, 12, 31⟩ (by decide) (by decide)

/-- Embedding of `DEFAULT_COMPONENT_PATTERNS` (ordered tag-name /
regex-pattern pairs). -/
def DEFAULT_COMPONENT_PATTERNS : List (String × String) :=
  [("n_methylation", "\\bn-?methyl"),
   ("non_canonical_amino_acid", "\\bnon[-\\s]?canonical amino"),
   ("cyclization", "\\bcycli[sz]ation"),
   ("flexizyme", "\\bflexizyme"),
   ("rapid_platform", "\\brapid platform")]

/-- Embedding of `detect_component_tags`; the regular-expression engine
(`re.search` with `IGNORECASE`) is the parameter `matcher`, applied to
pattern and text. -/
def detect_component_tags (matcher : String → String → Bool)
    (text : String) (patterns : List (String × String)) : List String :=
  (patterns.filter (fun p => matcher p.2 text)).map (fun p => p.1)

/-- Embedding of the dataclass `PatentRecord` (pipeline output). -/
structure PatentRecord where
  doc_number : String
  jurisdiction : String
  kind_code : Option String
  title : Option String
  abstract : Option String
  description : Option String
  claims : Option String
  family_id : Option String
  priority_numbers : List String
  cpc_codes : List String
  ipc_codes : List String
  assignees : List String
  inventors : List String
  filing_date : Option PyDate
  publication_date : Option PyDate
  grant_date : Option PyDate
  earliest_priority_date : Option PyDate
  estimated_expiration : Option PyDate
  component_tags : List String
  source : List (String × SVal)
  snippets : List SnippetPayload
deriving DecidableEq

/-- Python `dict.setdefault(k, v)` on the insertion-ordered
association-list model of the `source` dictionary. -/
def setdefaultSource (d : List (String × SVal)) (k : String) (v : SVal) :
    List (String × SVal) :=
  if d.any (fun p => p.1 == k) then d else d ++ [(k, v)]

/-- Earliest-priority resolution of `normalise_to_patent_record`: the
first `priority_numbers` entry (truthy entries only) that parses as a
date, else the parsed filing date. -/
def priorityAnchor (raw : ProviderPatentRaw) : Option PyDate :=
  match ((raw.priority_numbers.filter (fun e => e != "")).map
      (fun e => safe_date (some e))).reduceOption.head? with
  | some v => some v
  | none => safe_date raw.filing_date

/-- Embedding of `normalise_to_patent_record`.  The result is `none`
exactly when the date addition inside `estimate_expiration` overflows
(an exception the Python code does not catch); otherwise the produced
`PatentRecord` is returned. -/
def normalise_to_patent_record (matcher : String → String → Bool)
    (raw : ProviderPatentRaw) (component_patterns : Option (List (String × String)))
    (extra_synopsis : Option String) : Option PatentRecord :=
  match estimate_expiration (safe_date raw.filing_date) (priorityAnchor raw) with
  | none => none
  | some estimated_exp =>
    let patterns := match component_patterns with
      | none => DEFAULT_COMPONENT_PATTERNS
      | some [] => DEFAULT_COMPONENT_PATTERNS
      | some ps => ps
    let text_blob_parts := [raw.title.getD "", raw.abstract.getD "", raw.claims.getD "",
      raw.description.getD "", extra_synopsis.getD ""]
    let text_blob := String.intercalate "\n" (text_blob_parts.filter (fun p => p != ""))
    let component_tags := detect_component_tags matcher text_blob patterns
    let snippets := chunk_text raw.abstract "abstract" 1200 200 ++
      chunk_text raw.claims "claims" 1500 250 ++
      chunk_text raw.description "description" 2000 400
    let snippets := if snippets = [] && pyTruthy extra_synopsis then
        chunk_text extra_synopsis "summary" 1200 200
      else snippets
    let source_payload := setdefaultSource raw.source "provider" (SVal.str raw.provider)
    some { doc_number := raw.doc_number
           jurisdiction := raw.jurisdiction
           kind_code := raw.kind_code
           title := raw.title
           abstract := raw.abstract
           description := raw.description
           claims := raw.claims
           family_id := raw.family_id
           priority_numbers := raw.priority_numbers.filter (fun e => e != "")
           cpc_codes := raw.cpc_codes
           ipc_codes := raw.ipc_codes
           assignees := raw.assignees
           inventors := raw.inventors
           filing_date := safe_date raw.filing_date
           publication_date := safe_date raw.publication_date
           grant_date := safe_date raw.grant_date
           earliest_priority_date := priorityAnchor raw
           estimated_expiration := estimated_exp
           component_tags := component_tags
           source := source_payload
           snippets := snippets }

lemma reduceOption_nil_all_none {α : Type} (l : List (Option α))
    (h : l.reduceOption = []) : ∀ o ∈ l, o = none := by
  induction l with
  | nil => simp
  | cons a as ih =>
    cases a with
    | none =>
      intro o ho
      rcases List.mem_cons.mp ho with rfl | ho'
      · rfl
      · exact ih (by simpa [List.reduceOption_cons_of_none] using h) o ho'
    | some v => simp [List.reduceOption_cons_of_some] at h

lemma safe_date_empty : safe_date (some "") = none := rfl


lemma priorityAnchor_none_filing (raw : ProviderPatentRaw)
    (h : priorityAnchor raw = none) : safe_date raw.filing_date = none := by
  unfold priorityAnchor at h
  rcases hHead : ((raw.priority_numbers.filter (fun e => e != "")).map
      (fun e => safe_date (some e))).reduceOption.head? with _ | v
  · rw [hHead] at h
    exact h
  · rw [hHead] at h
    exact Option.noConfusion h

lemma priorityAnchor_none_entries (raw : ProviderPatentRaw)
    (h : priorityAnchor raw = none) :
    ∀ e ∈ raw.priority_numbers, safe_date (some e) = none := by
  intro e he
  by_cases hne : e = ""
  · rw [hne]
    exact safe_date_empty
  · unfold priorityAnchor at h
    rcases hHead : ((raw.priority_numbers.filter (fun e => e != "")).map
        (fun e => safe_date (some e))).reduceOption.head? with _ | v
    · have hnil := List.head?_eq_none_iff.mp hHead
      rcases hd : safe_date (some e) with _ | d
      · rfl
      · have hmem : some d ∈ ((raw.priority_numbers.filter (fun e => e != "")).map
            (fun e => safe_date (some e))) :=
          List.mem_map.mpr ⟨e, List.mem_filter.mpr ⟨he, by simp [hne]⟩, hd⟩
        have := reduceOption_nil_all_none _ hnil (some d) hmem
        exact Option.noConfusion this
    · rw [hHead] at h
      exact Option.noConfusion h

lemma priorityAnchor_some_cases (raw : ProviderPatentRaw) (p : PyDate)
    (h : priorityAnchor raw = some p) :
    (∃ e ∈ raw.priority_numbers, safe_date (some e) = some p) ∨
    safe_date raw.filing_date = some p := by
  unfold priorityAnchor at h
  rcases hHead : ((raw.priority_numbers.filter (fun e => e != "")).map
      (fun e => safe_date (some e))).reduceOption.head? with _ | v
  · rw [hHead] at h
    right
    exact h
  · rw [hHead] at h
    left
    have hveq : v = p := Option.some.inj h
    have hv : v ∈ ((raw.priority_numbers.filter (fun e => e != "")).map
        (fun e => safe_date (some e))).reduceOption := List.mem_of_mem_head? hHead
    have hv2 : some v ∈ ((raw.priority_numbers.filter (fun e => e != "")).map
        (fun e => safe_date (some e))) := List.reduceOption_mem_iff.mp hv
    obtain ⟨e, he, hse⟩ := List.mem_map.mp hv2
    exact ⟨e, List.mem_of_mem_filter he, by rw [hse, hveq]⟩

lemma estimate_expiration_anchor (f : Option PyDate) (p : PyDate) :
    estimate_expiration f (some p) = Option.map some (addDays p (20 * 365)) := by
  rw [estimate_expiration.eq_def, show pyDateOr (some p) f = some p from rfl]

lemma estimate_expiration_anchor_some (f : Option PyDate) (p d : PyDate)
    (h : addDays p (20 * 365) = some d) :
    estimate_expiration f (some p) = some (some d) := by
  rw [estimate_expiration_anchor, h, Option.map_some']

lemma estimate_expiration_anchor_none (f : Option PyDate) (p : PyDate)
    (h : addDays p (20 * 365) = none) :
    estimate_expiration f (some p) = none := by
  rw [estimate_expiration_anchor, h, Option.map_none']

set_option maxRecDepth 4000 in
lemma normalise_some_estimate (matcher : String → String → Bool)
    (raw : ProviderPatentRaw) (cp : Option (List (String × String)))
    (es : Option String) (rec : PatentRecord)
    (h : normalise_to_patent_record matcher raw cp es = some rec) :
    estimate_expiration (safe_date raw.filing_date) (priorityAnchor raw) =
      some rec.estimated_expiration := by
  rcases hE : estimate_expiration (safe_date raw.filing_date) (priorityAnchor raw) with _ | eexp
  · rw [normalise_to_patent_record.eq_def, hE] at h
    exact Option.noConfusion h
  · rw [normalise_to_patent_record.eq_def, hE] at h
    injection h with h2
    rw [← h2]

/-- C7: whenever `normalise_to_patent_record` produces a record (it
only fails on date-addition overflow), the record's
`estimated_expiration` is non-null iff the filing date or some
`priority_numbers` entry parses as a date, and whenever the anchor (the
first priority entry that parses as a date, falling back to the parsed
filing date) exists, the estimate is exactly the anchor plus `20 * 365`
days. -/
theorem normalise_expiration_invariant (matcher : String → String → Bool)
    (raw : ProviderPatentRaw) (cp : Option (List (String × String)))
    (es : Option String) (rec : PatentRecord)
    (h : normalise_to_patent_record matcher raw cp es = some rec) :
    (rec.estimated_expiration.isSome ↔
      ((safe_date raw.filing_date).isSome ∨
        ∃ e ∈ raw.priority_numbers, (safe_date (some e)).isSome)) ∧
    (∀ a, priorityAnchor raw = some a →
      rec.estimated_expiration = addDays a (20 * 365)) := by
  have hE := normalise_some_estimate matcher raw cp es rec h
  constructor
  · constructor
    · intro hsome
      rcases hP : priorityAnchor raw with _ | p
      · rw [hP, priorityAnchor_none_filing raw hP] at hE
        have hnone : (none : Option PyDate) = rec.estimated_expiration := Option.some.inj hE
        rw [← hnone] at hsome
        simp at hsome
      · rcases priorityAnchor_some_cases raw p hP with ⟨e, he, hse⟩ | hf
        · right
          exact ⟨e, he, by rw [hse]; rfl⟩
        · left
          rw [hf]
          rfl
    · intro hrhs
      rcases hP : priorityAnchor raw with _ | p
      · exfalso
        rcases hrhs with hl | ⟨e, he, hs⟩
        · rw [priorityAnchor_none_filing raw hP] at hl
          simp at hl
        · rw [priorityAnchor_none_entries raw hP e he] at hs
          simp at hs
      · rw [hP] at hE
        rcases hA : addDays p (20 * 365) with _ | d
        · rw [estimate_expiration_anchor_none _ p hA] at hE
          exact Option.noConfusion hE
        · rw [estimate_expiration_anchor_some _ p d hA] at hE
          have := Option.some.inj hE
          rw [← this]
          rfl
  · intro a ha
    rw [ha] at hE
    rcases hA : addDays a (20 * 365) with _ | d
    · rw [estimate_expiration_anchor_none _ a hA] at hE
      exact Option.noConfusion hE
    · rw [estimate_expiration_anchor_some _ a d hA] at hE
      have := Option.some.inj hE
      exact this.symm

/-- Concrete raw record used by the C7 witness: only the filing date is
set, and it parses. -/
def c7raw : ProviderPatentRaw :=
  { doc_number := "US1"
    jurisdiction := "US"
    kind_code := none
    family_id := none
    title := none
    abstract := none
    claims := none
    description := none
    filing_date := some "2020-01-01"
    publication_date := none
    grant_date := none
    assignees := []
    inventors := []
    cpc_codes := []
    ipc_codes := []
    priority_numbers := []
    source := []
    provider := "patentsview" }

/-- Record produced by normalising `c7raw`: the filing date anchors the
expiration estimate at 2020-01-01 plus 7300 days = 2039-12-27. -/
def c7rec : PatentRecord :=
  { doc_number := "US1"
    jurisdiction := "US"
    kind_code := none
    title := none
    abstract := none
    description := none
    claims := none
    family_id := none
    priority_numbers := []
    cpc_codes := []
    ipc_codes := []
    assignees := []
    inventors := []
    filing_date := some ⟨2020, 1, 1⟩
    publication_date := none
    grant_date := none
    earliest_priority_date := some ⟨2020, 1, 1⟩
    estimated_expiration := some ⟨2039, 12, 27⟩
    component_tags := []
    source := [("provider", SVal.str "patentsview")]
    snippets := [] }

/-- Witness for C7: at the concrete record `c7raw` the normaliser
produces `c7rec` and the expiration-estimate invariant instantiates. -/
theorem normalise_expiration_invariant_witness :
    normalise_to_patent_record (fun _ _ => false) c7raw none none = some c7rec ∧
    c7rec.estimated_expiration.isSome = true :=
  ⟨by decide,
   (normalise_expiration_invariant (fun _ _ => false) c7raw none none c7rec
      (by decide)).1.mpr (Or.inl (by decide))⟩

/-- Family key of a raw record:
`record.family_id or record.doc_number`. -/
def famKey (r : ProviderPatentRaw) : String :=
  match r.family_id with
  | some f => if f = "" then r.doc_number else f
  | none => r.doc_number

/-- Identity key under which records are merged:
`record.doc_number or record.family_id or f"unknown-{record.provider}"`. -/
def identityKey (r : ProviderPatentRaw) : String :=
  if r.doc_number ≠ "" then r.doc_number
  else
    match r.family_id with
    | some f => if f ≠ "" then f else "unknown-" ++ r.provider
    | none => "unknown-" ++ r.provider

/-- Final contents of `family_metadata[k]` for one set-valued field:
the entries of that field over all records whose family key is `k`
(listed with repetitions; all uses view it as a set through
`pySortedUnion`). -/
def famField (field : ProviderPatentRaw → List String)
    (records : List ProviderPatentRaw) (k : String) : List String :=
  ((records.filter (fun r => famKey r == k)).map field).flatten

/-- Embedding of `merge_two_provider_records`. -/
def merge_two_provider_records (left right : ProviderPatentRaw) : ProviderPatentRaw :=
  { doc_number := pyOrStr left.doc_number right.doc_number
    jurisdiction := pyOrStr left.jurisdiction right.jurisdiction
    kind_code := pyOrOpt left.kind_code right.kind_code
    family_id := pyOrOpt left.family_id right.family_id
    title := if (right.title.getD "").length ≤ (left.title.getD "").length
      then left.title else right.title
    abstract := if (right.abstract.getD "").length ≤ (left.abstract.getD "").length
      then left.abstract else right.abstract
    claims := pyOrOpt left.claims right.claims
    description := pyOrOpt left.description right.description
    filing_date := pyOrOpt left.filing_date right.filing_date
    publication_date := pyOrOpt left.publication_date right.publication_date
    grant_date := pyOrOpt left.grant_date right.grant_date
    assignees := pySortedUnion left.assignees right.assignees
    inventors := pySortedUnion left.inventors right.inventors
    cpc_codes := pySortedUnion left.cpc_codes right.cpc_codes
    ipc_codes := pySortedUnion left.ipc_codes right.ipc_codes
    priority_numbers := pySortedUnion left.priority_numbers right.priority_numbers
    source := [("providers", SVal.strs (pySortedUnion [left.provider] [right.provider]))]
    provider := left.provider ++ "+" ++ right.provider }

/-- One step of building the `merged` dictionary: a Python dict update
keeps the position of an existing key (merging the stored record with
the new one) and appends a new key at the end. -/
def addToMerged (d : List (String × ProviderPatentRaw)) (r : ProviderPatentRaw) :
    List (String × ProviderPatentRaw) :=
  if d.any (fun p => p.1 == identityKey r) then
    d.map (fun p =>
      if p.1 == identityKey r then (p.1, merge_two_provider_records p.2 r) else p)
  else d ++ [(identityKey r, r)]

/-- The `merged` dictionary of `merge_records_by_family` after the
first loop. -/
def mergedDict (records : List ProviderPatentRaw) :
    List (String × ProviderPatentRaw) :=
  records.foldl addToMerged []

/-- Family enhancement applied to each merged record by the second loop
of `merge_records_by_family`: every set-valued field becomes the sorted
union of the record's own entries with the family-wide union at the
record's family key. -/
def enhanceRecord (records : List ProviderPatentRaw) (r : ProviderPatentRaw) :
    ProviderPatentRaw :=
  { r with
    assignees :=
      pySortedUnion r.assignees (famField (fun x => x.assignees) records (famKey r))
    inventors :=
      pySortedUnion r.inventors (famField (fun x => x.inventors) records (famKey r))
    cpc_codes :=
      pySortedUnion r.cpc_codes (famField (fun x => x.cpc_codes) records (famKey r))
    ipc_codes :=
      pySortedUnion r.ipc_codes (famField (fun x => x.ipc_codes) records (famKey r))
    priority_numbers :=
      pySortedUnion r.priority_numbers
        (famField (fun x => x.priority_numbers) records (famKey r)) }

/-- Embedding of `merge_records_by_family`: identity-merge into the
insertion-ordered dictionary, then family enhancement of each value. -/
def merge_records_by_family (records : List ProviderPatentRaw) :
    List ProviderPatentRaw :=
  (mergedDict records).map (fun p => enhanceRecord records p.2)

lemma mem_pySortedUnion (xs ys : List String) (x : String) :
    x ∈ pySortedUnion xs ys ↔ x ∈ xs ∨ x ∈ ys := by
  unfold pySortedUnion pySorted
  rw [(List.perm_insertionSort pyLe _).mem_iff, List.mem_dedup, List.mem_append]

lemma mem_famField (field : ProviderPatentRaw → List String)
    (records : List ProviderPatentRaw) (k : String) (x : String) :
    x ∈ famField field records k ↔ ∃ s ∈ records, famKey s = k ∧ x ∈ field s := by
  unfold famField
  rw [List.mem_flatten]
  constructor
  · rintro ⟨l, hl, hx⟩
    obtain ⟨s, hs, rfl⟩ := List.mem_map.mp hl
    obtain ⟨hs1, hs2⟩ := List.mem_filter.mp hs
    exact ⟨s, hs1, by simpa using hs2, hx⟩
  · rintro ⟨s, hs, hk, hx⟩
    exact ⟨field s, List.mem_map.mpr ⟨s, List.mem_filter.mpr ⟨hs, by simpa using hk⟩, rfl⟩, hx⟩

/-- C1: every record output by `merge_records_by_family` contains, in
each of its five set-valued fields, every entry of that field of every
input record sharing its family key (`familyId` if present, else
`docNumber`). -/
theorem merge_family_propagation (records : List ProviderPatentRaw)
    (r : ProviderPatentRaw) (hr : r ∈ merge_records_by_family records)
    (s : ProviderPatentRaw) (hs : s ∈ records) (hkey : famKey s = famKey r) :
    (∀ x ∈ s.assignees, x ∈ r.assignees) ∧
    (∀ x ∈ s.inventors, x ∈ r.inventors) ∧
    (∀ x ∈ s.cpc_codes, x ∈ r.cpc_codes) ∧
    (∀ x ∈ s.ipc_codes, x ∈ r.ipc_codes) ∧
    (∀ x ∈ s.priority_numbers, x ∈ r.priority_numbers) := by
  obtain ⟨p, hp, rfl⟩ := List.mem_map.mp hr
  have hk : famKey s = famKey p.2 := hkey
  refine ⟨?_, ?_, ?_, ?_, ?_⟩ <;> intro x hx
  · exact (mem_pySortedUnion _ _ _).mpr
      (Or.inr ((mem_famField (fun t => t.assignees) records _ x).mpr ⟨s, hs, hk, hx⟩))
  · exact (mem_pySortedUnion _ _ _).mpr
      (Or.inr ((mem_famField (fun t => t.inventors) records _ x).mpr ⟨s, hs, hk, hx⟩))
  · exact (mem_pySortedUnion _ _ _).mpr
      (Or.inr ((mem_famField (fun t => t.cpc_codes) records _ x).mpr ⟨s, hs, hk, hx⟩))
  · exact (mem_pySortedUnion _ _ _).mpr
      (Or.inr ((mem_famField (fun t => t.ipc_codes) records _ x).mpr ⟨s, hs, hk, hx⟩))
  · exact (mem_pySortedUnion _ _ _).mpr
      (Or.inr ((mem_famField (fun t => t.priority_numbers) records _ x).mpr ⟨s, hs, hk, hx⟩))

/-- Concrete raw record for the C1 witness: the US member of family
FAM-1 with assignee Moderna. -/
def c1recA : ProviderPatentRaw :=
  { doc_number := "US1234567"
    jurisdiction := "US"
    kind_code := some "A1"
    family_id := some "FAM-1"
    title := some "mRNA display platform"
    abstract := none
    claims := none
    description := none
    filing_date := some "2020-01-01"
    publication_date := none
    grant_date := none
    assignees := ["Moderna"]
    inventors := ["A. Doe"]
    cpc_codes := ["C07K"]
    ipc_codes := ["C12N"]
    priority_numbers := ["2019US123"]
    source := [("provider", SVal.str "patentsview")]
    provider := "patentsview" }

/-- Concrete raw record for the C1 witness: the WO member of family
FAM-1 with the disjoint assignee PeptiDream. -/
def c1recB : ProviderPatentRaw :=
  { doc_number := "WO2020123456"
    jurisdiction := "WO"
    kind_code := some "A1"
    family_id := some "FAM-1"
    title := none
    abstract := none
    claims := none
    description := none
    filing_date := some "2019-06-01"
    publication_date := none
    grant_date := none
    assignees := ["PeptiDream"]
    inventors := ["B. Smith"]
    cpc_codes := ["C12P"]
    ipc_codes := ["G01N"]
    priority_numbers := ["2018JP456"]
    source := [("provider", SVal.str "wipo_patentscope")]
    provider := "wipo_patentscope" }

/-- Witness for C1: merging the two FAM-1 records with disjoint
assignee sets gives two outputs whose assignees both contain Moderna
and PeptiDream. -/
theorem merge_family_propagation_witness :
    "PeptiDream" ∈
      ((merge_records_by_family [c1recA, c1recB]).getD 0 c1recA).assignees ∧
    "Moderna" ∈
      ((merge_records_by_family [c1recA, c1recB]).getD 1 c1recA).assignees :=
  ⟨(merge_family_propagation [c1recA, c1recB] _ (by decide) c1recB (by decide)
      (by decide)).1 "PeptiDream" (by decide),
   (merge_family_propagation [c1recA, c1recB] _ (by decide) c1recA (by decide)
      (by decide)).1 "Moderna" (by decide)⟩

/-- Record for the C2 counterexample: doc `D`, family `F1`,
assignee `a`. -/
def c2recA : ProviderPatentRaw :=
  { doc_number := "D"
    jurisdiction := "US"
    kind_code := none
    family_id := some "F1"
    title := none
    abstract := none
    claims := none
    description := none
    filing_date := none
    publication_date := none
    grant_date := none
    assignees := ["a"]
    inventors := []
    cpc_codes := []
    ipc_codes := []
    priority_numbers := []
    source := []
    provider := "p" }

/-- Record for the C2 counterexample: same doc `D` but family `F2`,
assignee `b`; it identity-merges with `c2recA`. -/
def c2recB : ProviderPatentRaw :=
  { c2recA with family_id := some "F2", assignees := ["b"] }

/-- Record for the C2 counterexample: doc `E`, family `F1`,
assignee `c`. -/
def c2recC : ProviderPatentRaw :=
  { c2recA with doc_number := "E", assignees := ["c"] }

/-- C2 counterexample: `merge_records_by_family` is not idempotent.
With records A (doc D, family F1, assignee a), B (doc D, family F2,
assignee b) and C (doc E, family F1, assignee c), the identity merge of
A and B carries `b` into the F1 record for doc D, so the second merge
propagates `b` to the F1 sibling E, which the first merge did not. -/
theorem merge_idempotence_counterexample :
    merge_records_by_family (merge_records_by_family [c2recA, c2recB, c2recC]) ≠
      merge_records_by_family [c2recA, c2recB, c2recC] := by
  decide

lemma pySortedUnion_sorted (xs ys : List String) :
    (pySortedUnion xs ys).Sorted pyLe :=
  List.sorted_insertionSort pyLe _

lemma pySortedUnion_nodup (xs ys : List String) : (pySortedUnion xs ys).Nodup :=
  ((List.perm_insertionSort pyLe _).nodup_iff).mpr (List.nodup_dedup _)

lemma pySortedUnion_absorb (xs ys : List String) (hsort : xs.Sorted pyLe)
    (hnd : xs.Nodup) (hsub : ∀ y ∈ ys, y ∈ xs) : pySortedUnion xs ys = xs := by
  apply List.eq_of_perm_of_sorted _ (pySortedUnion_sorted xs ys) hsort
  refine (List.perm_ext_iff_of_nodup (pySortedUnion_nodup xs ys) hnd).mpr ?_
  intro a
  rw [mem_pySortedUnion]
  constructor
  · rintro (h | h)
    · exact h
    · exact hsub a h
  · intro h
    exact Or.inl h

lemma foldl_addToMerged_disjoint (records : List ProviderPatentRaw) :
    ∀ d : List (String × ProviderPatentRaw),
      (∀ r ∈ records, ∀ p ∈ d, p.1 ≠ identityKey r) →
      (records.map identityKey).Nodup →
      records.foldl addToMerged d = d ++ records.map (fun r => (identityKey r, r)) := by
  induction records with
  | nil => intro d _ _; simp
  | cons r rs ih =>
    intro d hd hnd
    simp only [List.foldl_cons]
    have hnot : ¬ d.any (fun p => p.1 == identityKey r) = true := by
      simp only [List.any_eq_true, beq_iff_eq, not_exists]
      rintro p ⟨hp, he⟩
      exact hd r (List.mem_cons_self r rs) p hp he
    rw [show addToMerged d r = d ++ [(identityKey r, r)] by
      unfold addToMerged; rw [if_neg hnot]]
    have hnd' : (rs.map identityKey).Nodup := by
      simpa using hnd.of_cons
    have hhead : identityKey r ∉ rs.map identityKey := by
      have := hnd
      simp only [List.map_cons, List.nodup_cons] at this
      exact this.1
    have hd' : ∀ r' ∈ rs, ∀ p ∈ d ++ [(identityKey r, r)], p.1 ≠ identityKey r' := by
      intro r' hr' p hp
      rcases List.mem_append.mp hp with hp1 | hp2
      · exact hd r' (List.mem_cons_of_mem r hr') p hp1
      · rcases List.mem_singleton.mp hp2 with rfl
        intro heq
        have : identityKey r' ∈ rs.map identityKey := List.mem_map.mpr ⟨r', hr', rfl⟩
        rw [← heq] at this
        exact hhead this
    rw [ih (d ++ [(identityKey r, r)]) hd' hnd']
    simp

lemma merge_of_nodup (records : List ProviderPatentRaw)
    (h : (records.map identityKey).Nodup) :
    merge_records_by_family records =
      records.map (fun r => enhanceRecord records r) := by
  unfold merge_records_by_family mergedDict
  rw [foldl_addToMerged_disjoint records [] (by intro r _ p hp; simp at hp) h]
  rw [List.nil_append, List.map_map]
  rfl

lemma merge_map_identityKey (records : List ProviderPatentRaw)
    (hm : merge_records_by_family records =
      records.map (fun r => enhanceRecord records r)) :
    (merge_records_by_family records).map identityKey = records.map identityKey := by
  rw [hm, List.map_map]
  exact List.map_congr_left (fun a _ => rfl)

lemma famField_enhanced_subset (field : ProviderPatentRaw → List String)
    (hproj : ∀ rs v, field (enhanceRecord rs v) =
      pySortedUnion (field v) (famField field rs (famKey v)))
    (records : List ProviderPatentRaw)
    (hm : merge_records_by_family records =
      records.map (fun r => enhanceRecord records r))
    (k : String) :
    ∀ y ∈ famField field (merge_records_by_family records) k,
      y ∈ famField field records k := by
  intro y hy
  rw [mem_famField] at hy ⊢
  obtain ⟨t, ht, hkt, hyt⟩ := hy
  rw [hm] at ht
  obtain ⟨s, hs, rfl⟩ := List.mem_map.mp ht
  have hks : famKey s = k := hkt
  rw [hproj records s] at hyt
  rcases (mem_pySortedUnion _ _ _).mp hyt with h1 | h2
  · exact ⟨s, hs, hks, h1⟩
  · rw [mem_famField] at h2
    obtain ⟨u, hu, hku, hyu⟩ := h2
    exact ⟨u, hu, by rw [hku, hks], hyu⟩

lemma pySortedUnion_famField_stable (field : ProviderPatentRaw → List String)
    (hproj : ∀ rs v, field (enhanceRecord rs v) =
      pySortedUnion (field v) (famField field rs (famKey v)))
    (records : List ProviderPatentRaw)
    (hm : merge_records_by_family records =
      records.map (fun r => enhanceRecord records r))
    (r : ProviderPatentRaw) :
    pySortedUnion (field (enhanceRecord records r))
      (famField field (merge_records_by_family records) (famKey r)) =
      field (enhanceRecord records r) := by
  apply pySortedUnion_absorb
  · rw [hproj]
    exact pySortedUnion_sorted _ _
  · rw [hproj]
    exact pySortedUnion_nodup _ _
  · intro y hy
    have hy' := famField_enhanced_subset field hproj records hm (famKey r) y hy
    rw [hproj]
    exact (mem_pySortedUnion _ _ _).mpr (Or.inr hy')

/-- C2 (amended): on record lists whose identity keys are pairwise
distinct (no identity collisions), `merge_records_by_family` is
idempotent: re-merging an already-merged list changes nothing. -/
theorem merge_idempotent_on_distinct_keys (records : List ProviderPatentRaw)
    (h : (records.map identityKey).Nodup) :
    merge_records_by_family (merge_records_by_family records) =
      merge_records_by_family records := by
  have hm := merge_of_nodup records h
  have hkeys := merge_map_identityKey records hm
  have h2 : ((merge_records_by_family records).map identityKey).Nodup := by
    rw [hkeys]
    exact h
  have hm2 := merge_of_nodup _ h2
  have hpoint : ∀ t ∈ merge_records_by_family records,
      enhanceRecord (merge_records_by_family records) t = t := by
    intro t ht
    rw [hm] at ht
    obtain ⟨r, hr, rfl⟩ := List.mem_map.mp ht
    rw [enhanceRecord.eq_def]
    rw [show famKey (enhanceRecord records r) = famKey r from rfl]
    rw [pySortedUnion_famField_stable (fun x => x.assignees)
        (fun rs v => rfl) records hm r,
      pySortedUnion_famField_stable (fun x => x.inventors)
        (fun rs v => rfl) records hm r,
      pySortedUnion_famField_stable (fun x => x.cpc_codes)
        (fun rs v => rfl) records hm r,
      pySortedUnion_famField_stable (fun x => x.ipc_codes)
        (fun rs v => rfl) records hm r,
      pySortedUnion_famField_stable (fun x => x.priority_numbers)
        (fun rs v => rfl) records hm r]
  rw [hm2, List.map_congr_left hpoint, List.map_id']

/-- Witness for the amended C2: the two FAM-1 records have distinct
identity keys and their merge is a fixed point of a second merge. -/
theorem merge_idempotent_on_distinct_keys_witness :
    merge_records_by_family (merge_records_by_family [c1recA, c1recB]) =
      merge_records_by_family [c1recA, c1recB] :=
  merge_idempotent_on_distinct_keys [c1recA, c1recB] (by decide)

/-- A full-text fetcher: `fetch(doc_number, jurisdiction)` returning an
optional claims text and an optional description text (the network side
of the fetcher is a pure parameter of the embedding). -/
abbrev Fetcher := String → String → Option String × Option String

/-- Fetcher loop of `enrich_with_full_text` for one record: fetchers
run in order, each filling only the still-missing fields
(`claims = claims or fetched_claims`), and the loop breaks once both
fields are truthy.  The third component counts the fetchers invoked. -/
def fetchLoop (doc jur : String) :
    Option String → Option String → List Fetcher →
      Option String × Option String × Nat
  | claims, desc, [] => (claims, desc, 0)
  | claims, desc, f :: rest =>
    let fr := f doc jur
    let claims' := pyOrOpt claims fr.1
    let desc' := pyOrOpt desc fr.2
    if pyTruthy claims' && pyTruthy desc' then (claims', desc', 1)
    else
      let r := fetchLoop doc jur claims' desc' rest
      (r.1, r.2.1, r.2.2 + 1)

/-- Per-record body of `enrich_with_full_text`, paired with the number
of fetchers invoked for the record. -/
def enrichRecord (fetchers : List Fetcher) (r : ProviderPatentRaw) :
    ProviderPatentRaw × Nat :=
  if pyTruthy r.claims && pyTruthy r.description then (r, 0)
  else
    let res := fetchLoop r.doc_number r.jurisdiction r.claims r.description fetchers
    ({ r with claims := res.1, description := res.2.1 }, res.2.2)

/-- Embedding of `enrich_with_full_text`. -/
def enrich_with_full_text (records : List ProviderPatentRaw)
    (fetchers : List Fetcher) : List ProviderPatentRaw :=
  records.map (fun r => (enrichRecord fetchers r).1)

/-- Folding `claims = claims or fetched_claims` over the claims results
of a list of fetchers. -/
def foldClaims (doc jur : String) (init : Option String) (fs : List Fetcher) :
    Option String :=
  fs.foldl (fun c f => pyOrOpt c (f doc jur).1) init

/-- Folding `description = description or fetched_description` over the
description results of a list of fetchers. -/
def foldDesc (doc jur : String) (init : Option String) (fs : List Fetcher) :
    Option String :=
  fs.foldl (fun c f => pyOrOpt c (f doc jur).2) init

lemma pyOrOpt_of_truthy (a b : Option String) (h : pyTruthy a = true) :
    pyOrOpt a b = a := by
  simp [pyOrOpt, h]

lemma foldClaims_of_truthy (doc jur : String) (c : Option String)
    (h : pyTruthy c = true) : ∀ fs, foldClaims doc jur c fs = c := by
  intro fs
  induction fs with
  | nil => rfl
  | cons f rest ih =>
    show foldClaims doc jur (pyOrOpt c (f doc jur).1) rest = c
    rw [pyOrOpt_of_truthy c _ h, ih]

lemma foldDesc_of_truthy (doc jur : String) (d : Option String)
    (h : pyTruthy d = true) : ∀ fs, foldDesc doc jur d fs = d := by
  intro fs
  induction fs with
  | nil => rfl
  | cons f rest ih =>
    show foldDesc doc jur (pyOrOpt d (f doc jur).2) rest = d
    rw [pyOrOpt_of_truthy d _ h, ih]

lemma foldClaims_none_of_all_none (doc jur : String) :
    ∀ fs, (∀ f ∈ fs, (f doc jur).1 = none) → foldClaims doc jur none fs = none := by
  intro fs
  induction fs with
  | nil => intro _; rfl
  | cons f rest ih =>
    intro h
    show foldClaims doc jur (pyOrOpt none (f doc jur).1) rest = none
    rw [h f (List.mem_cons_self f rest)]
    exact ih (fun g hg => h g (List.mem_cons_of_mem f hg))

lemma foldDesc_none_of_all_none (doc jur : String) :
    ∀ fs, (∀ f ∈ fs, (f doc jur).2 = none) → foldDesc doc jur none fs = none := by
  intro fs
  induction fs with
  | nil => intro _; rfl
  | cons f rest ih =>
    intro h
    show foldDesc doc jur (pyOrOpt none (f doc jur).2) rest = none
    rw [h f (List.mem_cons_self f rest)]
    exact ih (fun g hg => h g (List.mem_cons_of_mem f hg))

lemma fetchLoop_spec (doc jur : String) :
    ∀ (fs : List Fetcher) (c d : Option String),
      (fetchLoop doc jur c d fs).2.2 ≤ fs.length ∧
      (fetchLoop doc jur c d fs).1 =
        foldClaims doc jur c (fs.take (fetchLoop doc jur c d fs).2.2) ∧
      (fetchLoop doc jur c d fs).2.1 =
        foldDesc doc jur d (fs.take (fetchLoop doc jur c d fs).2.2) := by
  intro fs
  induction fs with
  | nil => intro c d; exact ⟨Nat.le_refl 0, rfl, rfl⟩
  | cons f rest ih =>
    intro c d
    simp only [fetchLoop]
    by_cases hcond :
        (pyTruthy (pyOrOpt c (f doc jur).1) && pyTruthy (pyOrOpt d (f doc jur).2)) = true
    · rw [if_pos hcond]
      exact ⟨by simp, rfl, rfl⟩
    · rw [if_neg hcond]
      obtain ⟨h1, h2, h3⟩ := ih (pyOrOpt c (f doc jur).1) (pyOrOpt d (f doc jur).2)
      refine ⟨by simpa using Nat.succ_le_succ h1, ?_, ?_⟩
      · simpa [List.take_succ_cons] using h2
      · simpa [List.take_succ_cons] using h3

lemma fetchLoop_min (doc jur : String) :
    ∀ (fs : List Fetcher) (c d : Option String),
      ¬(pyTruthy c = true ∧ pyTruthy d = true) →
      ∀ k, pyTruthy (foldClaims doc jur c (fs.take k)) = true →
        pyTruthy (foldDesc doc jur d (fs.take k)) = true →
        (fetchLoop doc jur c d fs).2.2 ≤ k := by
  intro fs
  induction fs with
  | nil => intro c d _ k _ _; exact Nat.zero_le k
  | cons f rest ih =>
    intro c d hcd k hc hd
    cases k with
    | zero =>
      exact absurd ⟨hc, hd⟩ hcd
    | succ k =>
      simp only [fetchLoop]
      by_cases hcond :
          (pyTruthy (pyOrOpt c (f doc jur).1) && pyTruthy (pyOrOpt d (f doc jur).2)) = true
      · rw [if_pos hcond]
        exact Nat.succ_le_succ (Nat.zero_le k)
      · rw [if_neg hcond]
        have hcd' : ¬(pyTruthy (pyOrOpt c (f doc jur).1) = true ∧
            pyTruthy (pyOrOpt d (f doc jur).2) = true) := by
          intro ⟨a, b⟩
          exact hcond (by rw [a, b]; rfl)
        have hc' : pyTruthy (foldClaims doc jur (pyOrOpt c (f doc jur).1)
            (rest.take k)) = true := by
          simpa [List.take_succ_cons, foldClaims] using hc
        have hd' : pyTruthy (foldDesc doc jur (pyOrOpt d (f doc jur).2)
            (rest.take k)) = true := by
          simpa [List.take_succ_cons, foldDesc] using hd
        exact Nat.succ_le_succ (ih _ _ hcd' k hc' hd')

lemma foldClaims_take_stable (doc jur : String) (init : Option String)
    (fs : List Fetcher) (j k : Nat) (hjk : j ≤ k)
    (h : pyTruthy (foldClaims doc jur init (fs.take j)) = true) :
    foldClaims doc jur init (fs.take k) = foldClaims doc jur init (fs.take j) := by
  have hsplit : fs.take k = fs.take j ++ (fs.take k).drop j := by
    conv_lhs => rw [← List.take_append_drop j (fs.take k)]
    rw [List.take_take, min_eq_left hjk]
  rw [hsplit]
  unfold foldClaims
  rw [List.foldl_append]
  exact foldClaims_of_truthy doc jur _ h _

lemma foldDesc_take_stable (doc jur : String) (init : Option String)
    (fs : List Fetcher) (j k : Nat) (hjk : j ≤ k)
    (h : pyTruthy (foldDesc doc jur init (fs.take j)) = true) :
    foldDesc doc jur init (fs.take k) = foldDesc doc jur init (fs.take j) := by
  have hsplit : fs.take k = fs.take j ++ (fs.take k).drop j := by
    conv_lhs => rw [← List.take_append_drop j (fs.take k)]
    rw [List.take_take, min_eq_left hjk]
  rw [hsplit]
  unfold foldDesc
  rw [List.foldl_append]
  exact foldDesc_of_truthy doc jur _ h _

/-- C4: `enrich_with_full_text` maps each input record to an output
record such that: a record with truthy claims and description passes
through unchanged with zero fetchers invoked; every field other than
claims/description is unchanged; a truthy field is never replaced; the
final claims/description are the left-to-right `or`-folds of the
invoked fetcher prefix over the initial values; no fetcher beyond the
first prefix making both fields truthy is invoked; and a field that no
fetcher fills remains null. -/
theorem enrich_with_full_text_spec (records : List ProviderPatentRaw)
    (fetchers : List Fetcher) :
    List.Forall₂ (fun r o =>
      (pyTruthy r.claims = true → pyTruthy r.description = true →
        o = r ∧ (enrichRecord fetchers r).2 = 0) ∧
      (o.doc_number = r.doc_number ∧ o.jurisdiction = r.jurisdiction ∧
       o.kind_code = r.kind_code ∧ o.family_id = r.family_id ∧
       o.title = r.title ∧ o.abstract = r.abstract ∧
       o.filing_date = r.filing_date ∧ o.publication_date = r.publication_date ∧
       o.grant_date = r.grant_date ∧ o.assignees = r.assignees ∧
       o.inventors = r.inventors ∧ o.cpc_codes = r.cpc_codes ∧
       o.ipc_codes = r.ipc_codes ∧ o.priority_numbers = r.priority_numbers ∧
       o.source = r.source ∧ o.provider = r.provider) ∧
      (pyTruthy r.claims = true → o.claims = r.claims) ∧
      (pyTruthy r.description = true → o.description = r.description) ∧
      ((enrichRecord fetchers r).2 ≤ fetchers.length ∧
       o.claims = foldClaims r.doc_number r.jurisdiction r.claims
         (fetchers.take (enrichRecord fetchers r).2) ∧
       o.description = foldDesc r.doc_number r.jurisdiction r.description
         (fetchers.take (enrichRecord fetchers r).2)) ∧
      (∀ k, pyTruthy (foldClaims r.doc_number r.jurisdiction r.claims
          (fetchers.take k)) = true →
        pyTruthy (foldDesc r.doc_number r.jurisdiction r.description
          (fetchers.take k)) = true →
        (enrichRecord fetchers r).2 ≤ k) ∧
      ((r.claims = none ∧ ∀ f ∈ fetchers, (f r.doc_number r.jurisdiction).1 = none) →
        o.claims = none) ∧
      ((r.description = none ∧ ∀ f ∈ fetchers, (f r.doc_number r.jurisdiction).2 = none) →
        o.description = none))
      records (enrich_with_full_text records fetchers) := by
  unfold enrich_with_full_text
  rw [List.forall₂_map_right_iff]
  rw [List.forall₂_same]
  intro r hr
  by_cases hgate : (pyTruthy r.claims && pyTruthy r.description) = true
  · have he : enrichRecord fetchers r = (r, 0) := by
      unfold enrichRecord
      rw [if_pos hgate]
    rw [he]
    refine ⟨fun _ _ => ⟨rfl, rfl⟩,
      ⟨rfl, rfl, rfl, rfl, rfl, rfl, rfl, rfl, rfl, rfl, rfl, rfl, rfl, rfl, rfl, rfl⟩,
      fun _ => rfl, fun _ => rfl, ⟨Nat.zero_le _, rfl, rfl⟩,
      fun k _ _ => Nat.zero_le k, ?_, ?_⟩
    · rintro ⟨hc, _⟩
      exact hc
    · rintro ⟨hd, _⟩
      exact hd
  · have hncd : ¬(pyTruthy r.claims = true ∧ pyTruthy r.description = true) := by
      rintro ⟨a, b⟩
      exact hgate (by rw [a, b]; rfl)
    have he : enrichRecord fetchers r =
        ({ r with
            claims := (fetchLoop r.doc_number r.jurisdiction r.claims
              r.description fetchers).1
            description := (fetchLoop r.doc_number r.jurisdiction r.claims
              r.description fetchers).2.1 },
          (fetchLoop r.doc_number r.jurisdiction r.claims r.description fetchers).2.2) := by
      unfold enrichRecord
      rw [if_neg hgate]
    obtain ⟨hlen, hcl, hde⟩ := fetchLoop_spec r.doc_number r.jurisdiction fetchers
      r.claims r.description
    rw [he]
    refine ⟨fun h1 h2 => absurd ⟨h1, h2⟩ hncd,
      ⟨rfl, rfl, rfl, rfl, rfl, rfl, rfl, rfl, rfl, rfl, rfl, rfl, rfl, rfl, rfl, rfl⟩,
      ?_, ?_, ⟨hlen, hcl, hde⟩, ?_, ?_, ?_⟩
    · intro htr
      show (fetchLoop r.doc_number r.jurisdiction r.claims r.description fetchers).1 =
        r.claims
      rw [hcl, foldClaims_of_truthy _ _ _ htr]
    · intro htr
      show (fetchLoop r.doc_number r.jurisdiction r.claims r.description fetchers).2.1 =
        r.description
      rw [hde, foldDesc_of_truthy _ _ _ htr]
    · intro k hk1 hk2
      exact fetchLoop_min r.doc_number r.jurisdiction fetchers r.claims r.description
        hncd k hk1 hk2
    · rintro ⟨hcn, hall⟩
      show (fetchLoop r.doc_number r.jurisdiction r.claims r.description fetchers).1 = none
      rw [hcl, hcn]
      exact foldClaims_none_of_all_none _ _ _
        (fun f hf => hall f (List.take_subset _ _ hf))
    · rintro ⟨hdn, hall⟩
      show (fetchLoop r.doc_number r.jurisdiction r.claims r.description fetchers).2.1 = none
      rw [hde, hdn]
      exact foldDesc_none_of_all_none _ _ _
        (fun f hf => hall f (List.take_subset _ _ hf))

/-- Record for the C4 witness: claims and description both missing. -/
def c4rec : ProviderPatentRaw :=
  { doc_number := "US77"
    jurisdiction := "US"
    kind_code := none
    family_id := none
    title := none
    abstract := none
    claims := none
    description := none
    filing_date := none
    publication_date := none
    grant_date := none
    assignees := []
    inventors := []
    cpc_codes := []
    ipc_codes := []
    priority_numbers := []
    source := []
    provider := "p" }

/-- First fetcher of the C4 witness: returns both texts. -/
def c4f1 : Fetcher := fun _ _ => (some "Claim text", some "Description text")

/-- Second fetcher of the C4 witness: would return different texts, but
must not be invoked. -/
def c4f2 : Fetcher := fun _ _ => (some "OtherClaims", some "OtherDescription")

/-- Witness for C4: on a record missing both texts, the first fetcher
fills both fields and the loop invokes no further fetcher (the
invocation count is at most 1, and it is exactly 1), and the output
carries exactly the first fetcher's texts. -/
theorem enrich_with_full_text_spec_witness :
    (enrichRecord [c4f1, c4f2] c4rec).2 ≤ 1 ∧
    (enrichRecord [c4f1, c4f2] c4rec).2 = 1 ∧
    (enrich_with_full_text [c4rec] [c4f1, c4f2]).map (fun o => (o.claims, o.description)) =
      [(some "Claim text", some "Description text")] :=
  ⟨((List.forall₂_cons.mp
      (enrich_with_full_text_spec [c4rec] [c4f1, c4f2])).1).2.2.2.2.2.1
      1 (by decide) (by decide),
   by decide, by decide⟩

/-- An HTTP response as seen by the provider pagination loops: the
status code and the documents extracted from the JSON payload; the
documents stay abstract and are converted by the provider's item
parser. -/
structure HttpResponse (α : Type) where
  status_code : Nat
  docs : List α

/-- Pagination loop of `WipoPatentScopeProvider.fetch` over the
remaining page numbers: a 401 stops the loop keeping the collected
payloads, any other non-2xx status raises (`response.raise_for_status()`,
modelled as `Except.error status`), a short or empty page stops after
being collected, and otherwise the next page is requested. -/
def wipoGo {α : Type} (parse : α → ProviderPatentRaw)
    (responses : Nat → HttpResponse α) (perPage : Nat)
    (acc : List ProviderPatentRaw) :
    List Nat → Except Nat (List ProviderPatentRaw)
  | [] => .ok acc
  | page :: rest =>
    let resp := responses page
    if resp.status_code == 401 then .ok acc
    else if !(200 ≤ resp.status_code && resp.status_code < 300) then
      .error resp.status_code
    else
      let acc' := acc ++ resp.docs.map parse
      if resp.docs.length == 0 || resp.docs.length < perPage then .ok acc'
      else wipoGo parse responses perPage acc' rest

/-- Embedding of `WipoPatentScopeProvider.fetch`: a missing (falsy)
token yields no records; otherwise pages `0 .. max_pages - 1` are
walked. -/
def wipo_fetch {α : Type} (parse : α → ProviderPatentRaw) (token : Option String)
    (responses : Nat → HttpResponse α) (perPage maxPages : Nat) :
    Except Nat (List ProviderPatentRaw) :=
  if !(pyTruthy token) then .ok []
  else wipoGo parse responses perPage [] (List.range maxPages)

/-- Pagination loop of `EpoOpsProvider.fetch`: both 401 and 403 stop
the loop keeping the collected payloads; everything else is as for the
WIPO loop. -/
def epoGo {α : Type} (parse : α → ProviderPatentRaw)
    (responses : Nat → HttpResponse α) (perPage : Nat)
    (acc : List ProviderPatentRaw) :
    List Nat → Except Nat (List ProviderPatentRaw)
  | [] => .ok acc
  | page :: rest =>
    let resp := responses page
    if resp.status_code == 401 || resp.status_code == 403 then .ok acc
    else if !(200 ≤ resp.status_code && resp.status_code < 300) then
      .error resp.status_code
    else
      let acc' := acc ++ resp.docs.map parse
      if resp.docs.length == 0 || resp.docs.length < perPage then .ok acc'
      else epoGo parse responses perPage acc' rest

/-- Embedding of `EpoOpsProvider.fetch`: missing (falsy) key or secret
yields no records; otherwise pages `0 .. max_pages - 1` are walked. -/
def epo_fetch {α : Type} (parse : α → ProviderPatentRaw)
    (key secret : Option String) (responses : Nat → HttpResponse α)
    (perPage maxPages : Nat) : Except Nat (List ProviderPatentRaw) :=
  if !(pyTruthy key && pyTruthy secret) then .ok []
  else epoGo parse responses perPage [] (List.range maxPages)

/-- Response oracle of the C6 counterexample: page 0 succeeds with one
full page, page 1 answers 403. -/
def c6resp : Nat → HttpResponse ProviderPatentRaw :=
  fun page => if page = 0 then ⟨200, [c4rec]⟩ else ⟨403, []⟩

/-- C6 counterexample: on a 403 during pagination the WIPO fetch does
not stop softly — only 401 is handled, so `raise_for_status()` raises
and the records already collected are lost — while the EPO fetch does
stop and keeps them. -/
theorem wipo_403_counterexample :
    wipo_fetch (fun r => r) (some "token") c6resp 1 10 = .error 403 ∧
    epo_fetch (fun r => r) (some "key") (some "secret") c6resp 1 10 = .ok [c4rec] := by
  constructor
  · rfl
  · rfl

lemma range_split (k n : Nat) (h : k < n) :
    ∃ rest, List.range n = List.range k ++ k :: rest := by
  induction n with
  | zero => omega
  | succ m ih =>
    by_cases hk : k < m
    · obtain ⟨rest, hrest⟩ := ih hk
      exact ⟨rest ++ [m], by rw [List.range_succ, hrest]; simp⟩
    · have : k = m := by omega
      subst this
      exact ⟨[], by rw [List.range_succ]⟩

lemma wipoGo_good_pages {α : Type} (parse : α → ProviderPatentRaw)
    (responses : Nat → HttpResponse α) (perPage : Nat) :
    ∀ (gs : List Nat) (acc : List ProviderPatentRaw) (rest : List Nat),
      (∀ i ∈ gs, (responses i).status_code = 200 ∧
        (responses i).docs.length = perPage ∧ 0 < perPage) →
      wipoGo parse responses perPage acc (gs ++ rest) =
        wipoGo parse responses perPage
          (acc ++ (gs.map (fun i => (responses i).docs.map parse)).flatten) rest := by
  intro gs
  induction gs with
  | nil => intro acc rest _; simp
  | cons g gs ih =>
    intro acc rest hgood
    obtain ⟨hst, hlen, hpos⟩ := hgood g (List.mem_cons_self g gs)
    have hrec := ih (acc ++ (responses g).docs.map parse) rest
      (fun i hi => hgood i (List.mem_cons_of_mem g hi))
    simp only [List.cons_append, wipoGo, hst, hlen]
    have h1 : ((200 : Nat) == 401) = false := rfl
    have h2 : (!(200 ≤ 200 && 200 < 300)) = false := rfl
    rw [h1]
    simp only [Bool.false_eq_true, if_false, h2]
    have h3 : (perPage == 0 || perPage < perPage) = false := by
      simp [Nat.pos_iff_ne_zero.mp hpos]
    rw [h3]
    simp only [Bool.false_eq_true, if_false]
    rw [List.append_eq, hrec]
    simp [List.append_assoc]

lemma epoGo_good_pages {α : Type} (parse : α → ProviderPatentRaw)
    (responses : Nat → HttpResponse α) (perPage : Nat) :
    ∀ (gs : List Nat) (acc : List ProviderPatentRaw) (rest : List Nat),
      (∀ i ∈ gs, (responses i).status_code = 200 ∧
        (responses i).docs.length = perPage ∧ 0 < perPage) →
      epoGo parse responses perPage acc (gs ++ rest) =
        epoGo parse responses perPage
          (acc ++ (gs.map (fun i => (responses i).docs.map parse)).flatten) rest := by
  intro gs
  induction gs with
  | nil => intro acc rest _; simp
  | cons g gs ih =>
    intro acc rest hgood
    obtain ⟨hst, hlen, hpos⟩ := hgood g (List.mem_cons_self g gs)
    have hrec := ih (acc ++ (responses g).docs.map parse) rest
      (fun i hi => hgood i (List.mem_cons_of_mem g hi))
    simp only [List.cons_append, epoGo, hst, hlen]
    have h1 : ((200 : Nat) == 401 || (200 : Nat) == 403) = false := rfl
    have h2 : (!(200 ≤ 200 && 200 < 300)) = false := rfl
    rw [h1]
    simp only [Bool.false_eq_true, if_false, h2]
    have h3 : (perPage == 0 || perPage < perPage) = false := by
      simp [Nat.pos_iff_ne_zero.mp hpos]
    rw [h3]
    simp only [Bool.false_eq_true, if_false]
    rw [List.append_eq, hrec]
    simp [List.append_assoc]

/-- C6 (amended): when pagination reaches page `k` after full
successful pages, an authentication rejection behaves as follows: the
EPO fetch stops on 401 or 403 and returns the records collected from
the earlier pages without raising; the WIPO fetch does so only on 401 —
on a 403 it raises (`raise_for_status`), modelled as an `error`
result. -/
theorem auth_rejection_soft_stop {α : Type} (parse : α → ProviderPatentRaw)
    (responses : Nat → HttpResponse α) (perPage maxPages k : Nat)
    (token key secret : Option String)
    (htok : pyTruthy token = true) (hkey : pyTruthy key = true)
    (hsec : pyTruthy secret = true) (hk : k < maxPages)
    (hgood : ∀ i, i < k → (responses i).status_code = 200 ∧
      (responses i).docs.length = perPage ∧ 0 < perPage) :
    ((responses k).status_code = 401 →
      wipo_fetch parse token responses perPage maxPages =
        .ok ((List.range k).map (fun i => (responses i).docs.map parse)).flatten) ∧
    (((responses k).status_code = 401 ∨ (responses k).status_code = 403) →
      epo_fetch parse key secret responses perPage maxPages =
        .ok ((List.range k).map (fun i => (responses i).docs.map parse)).flatten) ∧
    ((responses k).status_code = 403 →
      wipo_fetch parse token responses perPage maxPages = .error 403) := by
  obtain ⟨rest, hrange⟩ := range_split k maxPages hk
  have hgood' : ∀ i ∈ List.range k, (responses i).status_code = 200 ∧
      (responses i).docs.length = perPage ∧ 0 < perPage :=
    fun i hi => hgood i (List.mem_range.mp hi)
  have hw : wipo_fetch parse token responses perPage maxPages =
      wipoGo parse responses perPage
        (((List.range k).map (fun i => (responses i).docs.map parse)).flatten)
        (k :: rest) := by
    unfold wipo_fetch
    rw [htok, hrange,
      wipoGo_good_pages parse responses perPage (List.range k) [] (k :: rest) hgood']
    simp
  have he : epo_fetch parse key secret responses perPage maxPages =
      epoGo parse responses perPage
        (((List.range k).map (fun i => (responses i).docs.map parse)).flatten)
        (k :: rest) := by
    unfold epo_fetch
    rw [hkey, hsec, hrange,
      epoGo_good_pages parse responses perPage (List.range k) [] (k :: rest) hgood']
    simp
  refine ⟨?_, ?_, ?_⟩
  · intro h401
    rw [hw]
    simp [wipoGo, h401]
  · intro h40x
    rw [he]
    rcases h40x with h | h
    · simp [epoGo, h]
    · simp [epoGo, h]
  · intro h403
    rw [hw]
    simp [wipoGo, h403]

/-- Witness for the amended C6 on the concrete oracle `c6resp`: one
good page, then a 403 that the EPO fetch absorbs, returning the page-0
records. -/
theorem auth_rejection_soft_stop_witness :
    epo_fetch (fun r => r) (some "key") (some "secret") c6resp 1 10 = .ok [c4rec] :=
  (auth_rejection_soft_stop (fun r => r) c6resp 1 10 1
    (some "token") (some "key") (some "secret")
    (by decide) (by decide) (by decide) (by decide)
    (fun i hi => by
      have h0 : i = 0 := by omega
      subst h0
      exact ⟨rfl, rfl, by decide⟩)).2.1 (Or.inr rfl)
